import Mathlib

/-!
Shallow embedding of the core of the `onoma` workspace symbol indexer
(parser / indexer / resolver), together with proofs about its scoring,
path, hashing and store-update functions.

Conventions of the embedding:

* Rust `i64` values are modelled as `Int`; the program's saturating i64
  additions are modelled by `satAdd`, which clamps at the i64 bounds.
  Divisions in the source only ever happen on non-negative operands, where
  Rust's truncating division, Lean's `Int` division and `Nat` division all
  agree.
* Rust `usize` values are modelled as `Nat`.
* A file path is modelled as its list of components (the same way the
  repository's own tests build paths, via `PathBuf::from_iter`), on a
  Unix-style platform whose `MAIN_SEPARATOR` is `'/'`.  Components are
  assumed to be ordinary names: non-empty and separator-free.  The string
  form of a path is the components joined by the separator.
* External collaborators (the tree-sitter grammars, the SIMD fuzzy
  matcher, the SQLite engine) are modelled as inputs: a list of captures,
  a matcher function, and an explicit relational store with transactional
  commit.
-/

namespace Onoma

/-! ## Machine-integer helpers -/

/-- Largest `i64` value. -/
def i64Max : Int := 9223372036854775807

/-- Smallest `i64` value. -/
def i64Min : Int := -9223372036854775808

/-- Rust `i64::saturating_add` on the `Int` model. -/
def satAdd (a b : Int) : Int := min (max (a + b) i64Min) i64Max

/-- Largest `i32` value; range coordinates are stored as `i32` columns. -/
def i32Max : Nat := 2147483647

/-! ## Paths (`std::path` as used by the program)

A path is its list of components.  `pathToString` is the rendered form
(`Path::display` / `to_string_lossy` on Unix), and `parentDirString` is
the string form of `Path::parent`, with `None` rendered as the empty
string exactly as `map_or_else(String::new, …)` does in
`resolver/utils.rs`. -/

/-- `std::path::MAIN_SEPARATOR` on the modelled (Unix) platform. -/
def pathSep : String := "/"

/-- The rendered string of a component path. -/
def pathToString (p : List String) : String := String.intercalate pathSep p

/-- String form of the parent directory of a file path (empty when there is
no parent), as computed in `get_path_distance`. -/
def parentDirString (p : List String) : String :=
  String.intercalate pathSep p.dropLast

/-- `Path::file_name` on the component model: the final component, when it
is an ordinary name. -/
def fileName (p : List String) : Option String :=
  match p.getLast? with
  | some s => if s.isEmpty || s = ".." then none else some s
  | none => none

/-- `Path::starts_with`: component-wise prefix test, used by
`is_inside_workspace`. -/
def pathStartsWith (p base : List String) : Bool := base.isPrefixOf p

/-! ## `resolver/utils.rs` -/

/-- Whether a basename belongs to the fixed entrypoint set
(`is_entrypoint_file`). -/
def is_entrypoint_file (filename : String) : Bool :=
  filename = "mod.rs" || filename = "lib.rs" || filename = "main.rs" ||
  filename = "index.js" || filename = "index.jsx" || filename = "index.ts" ||
  filename = "index.tsx" || filename = "index.mjs" || filename = "index.cjs" ||
  filename = "index.vue" || filename = "__init__.py" || filename = "__main__.py" ||
  filename = "main.go" || filename = "main.c" || filename = "index.php" ||
  filename = "main.rb" || filename = "index.rb"

/-- The closed suffix list used by the test-harness heuristic. -/
def test_file_patterns : List String :=
  [".test.js", ".spec.js", ".test.ts", ".spec.ts",
   "test_", "_test.py",
   "test", "test.php",
   "test", "Test.java",
   "_test.rb", "test_",
   "tests.rs", "_test.rs", "test_",
   "_test.go",
   "_test.c", "_test.cpp", "_test.cc",
   "test", "tests", "Test.cs",
   "Test.kt",
   "Tests.swift"]

/-- `is_part_of_test_harness`: suffix match on the basename, or any ancestor
directory literally named `tests`.  On the component model the file names of
the ancestors of a path are exactly its components. -/
def is_part_of_test_harness (path : List String) : Bool :=
  (match fileName path with
   | some filename => test_file_patterns.any (fun pattern => pattern.data.isSuffixOf filename.data)
   | none => false) ||
  path.any (fun component => component = "tests")

/-- `str::split` on a single separator character: the pieces between
separators, empty pieces included (structural on the character list). -/
def splitOnChar (sep : Char) : List Char → List (List Char)
  | [] => [[]]
  | c :: rest =>
      let r := splitOnChar sep rest
      if c = sep then [] :: r
      else
        match r with
        | [] => [[c]]
        | h :: t => (c :: h) :: t

/-- Components of a directory string: split on the separator and drop the
empty pieces (`get_path_distance`). -/
def splitParts (dir : String) : List String :=
  ((splitOnChar '/' dir.data).map (fun cs => String.mk cs)).filter (fun s => !s.isEmpty)

/-- Length of the common component prefix: `zip`, `take_while`, `count`. -/
def commonPartsCount (a b : List String) : Nat :=
  ((a.zip b).takeWhile (fun q => q.1 = q.2)).length

/-- `get_path_distance`: number of components of `a`'s parent directory that
are not part of the common prefix with `b`'s parent directory; `0` when the
two parent strings are identical. -/
def get_path_distance (a b : List String) : Nat :=
  let a_dir := parentDirString a
  let b_dir := parentDirString b
  if a_dir = b_dir then 0
  else
    let a_parts := splitParts a_dir
    let b_parts := splitParts b_dir
    a_parts.length - commonPartsCount a_parts b_parts

/-! ## `resolver/constant.rs` and `resolver/weight.rs` -/

/-- Default score for a resolved symbol before adjustments. -/
def DEFAULT_SCORE : Int := 1000

/-- Seconds the resolver will wait on a channel send before giving up. -/
def RESOLVER_SEND_TIMEOUT_SECS : Nat := 2

/-- 3.5% bonus for common symbol kinds. -/
def COMMON_SYMBOL_KINDS_SCORE_BONUS : Int := (DEFAULT_SCORE * 35) / 1000

/-- 0.5% bonus for infrequent symbol kinds. -/
def INFREQUENT_SYMBOL_KINDS_SCORE_BONUS : Int := (DEFAULT_SCORE * 5) / 1000

/-- 1.5% penalty for uncommon symbol kinds. -/
def UNCOMMON_SYMBOL_KINDS_SCORE_PENALTY : Int := -((DEFAULT_SCORE * 15) / 1000)

/-- 0.5% penalty for symbols that look like part of a test harness. -/
def TEST_HARNESS_SCORE_PENALTY : Int := -((DEFAULT_SCORE * 5) / 1000)

/-- 1% penalty for symbols defined in an entrypoint file. -/
def ENTRYPOINT_FILE_SCORE_PENALTY : Int := -(DEFAULT_SCORE / 100)

/-- Penalty for the directory distance from the currently focused file, from
`calculate_distance_score_penalty`.  The `usize` distance is converted with
`i64::try_from(..).unwrap_or(MAX_DISTANCE)` and clamped with
`.min(MAX_DISTANCE)` before being weighted. -/
def calculate_distance_score_penalty (distance : Nat) : Int :=
  let MAX_DISTANCE : Int := 8
  if distance = 0 then 0
  else
    let d : Int := min (if (distance : Int) ≤ i64Max then (distance : Int) else MAX_DISTANCE) MAX_DISTANCE;
    -((DEFAULT_SCORE * d) / 1000)

/-- One fuzzy match as produced by the external matcher: a raw unsigned
score and an exactness flag. -/
structure FuzzyMatch where
  score : Nat
  exact : Bool
deriving DecidableEq, Repr

/-- Bonus contributed by one fuzzy match (`calculate_fuzzy_match_bonus`):
exact matches get `(score / 5) * 2`, others get `score / 4` capped at
`(DEFAULT_SCORE * 40) / 1000`. -/
def calculate_fuzzy_match_bonus (fuzzy_match : FuzzyMatch) : Int :=
  if fuzzy_match.exact then
    let score : Int := fuzzy_match.score
    (score / 5) * 2
  else
    let score : Int := fuzzy_match.score
    min (score / 4) ((DEFAULT_SCORE * 40) / 1000)

/-! ## `models/parsed/symbol_kind.rs`

The closed enumeration of symbol kinds, in source order.  `fromString` is
strum's `EnumString` (`from_str` on the exact variant name), used to look up
query capture names; unrecognized names yield `none` and are skipped by the
parser. -/

/-- The semantic kind of a symbol; `Unknown` is the default variant. -/
inductive SymbolKind where
  | Unknown
  | AbstractMethod
  | Accessor
  | Array
  | Assertion
  | AssociatedType
  | Attribute
  | Axiom
  | Boolean
  | Class
  | Concept
  | Constant
  | Constructor
  | Contract
  | DataFamily
  | Delegate
  | Enum
  | EnumMember
  | Error
  | Event
  | Extension
  | Fact
  | Field
  | File
  | Function
  | Getter
  | Grammar
  | Instance
  | Interface
  | Key
  | Lang
  | Lemma
  | Library
  | Macro
  | Method
  | MethodAlias
  | MethodReceiver
  | MethodSpecification
  | Message
  | Mixin
  | Modifier
  | Module
  | Namespace
  | Null
  | Number
  | Object
  | Operator
  | Package
  | PackageObject
  | Parameter
  | ParameterLabel
  | Pattern
  | Predicate
  | Property
  | Protocol
  | ProtocolMethod
  | PureVirtualMethod
  | Quasiquoter
  | SelfParameter
  | Setter
  | Signature
  | SingletonClass
  | SingletonMethod
  | StaticDataMember
  | StaticEvent
  | StaticField
  | StaticMethod
  | StaticProperty
  | StaticVariable
  | String
  | Struct
  | Subscript
  | Tactic
  | Theorem
  | ThisParameter
  | Trait
  | TraitMethod
  | «Type»
  | TypeAlias
  | TypeClass
  | TypeClassMethod
  | TypeFamily
  | TypeParameter
  | Union
  | Value
  | Variable
deriving DecidableEq, Repr

/-- `SymbolKind::from_str` (strum `EnumString`): exact variant-name match. -/
def symbolKindFromString : String → Option SymbolKind
  | "Unknown" => some .Unknown
  | "AbstractMethod" => some .AbstractMethod
  | "Accessor" => some .Accessor
  | "Array" => some .Array
  | "Assertion" => some .Assertion
  | "AssociatedType" => some .AssociatedType
  | "Attribute" => some .Attribute
  | "Axiom" => some .Axiom
  | "Boolean" => some .Boolean
  | "Class" => some .Class
  | "Concept" => some .Concept
  | "Constant" => some .Constant
  | "Constructor" => some .Constructor
  | "Contract" => some .Contract
  | "DataFamily" => some .DataFamily
  | "Delegate" => some .Delegate
  | "Enum" => some .Enum
  | "EnumMember" => some .EnumMember
  | "Error" => some .Error
  | "Event" => some .Event
  | "Extension" => some .Extension
  | "Fact" => some .Fact
  | "Field" => some .Field
  | "File" => some .File
  | "Function" => some .Function
  | "Getter" => some .Getter
  | "Grammar" => some .Grammar
  | "Instance" => some .Instance
  | "Interface" => some .Interface
  | "Key" => some .Key
  | "Lang" => some .Lang
  | "Lemma" => some .Lemma
  | "Library" => some .Library
  | "Macro" => some .Macro
  | "Method" => some .Method
  | "MethodAlias" => some .MethodAlias
  | "MethodReceiver" => some .MethodReceiver
  | "MethodSpecification" => some .MethodSpecification
  | "Message" => some .Message
  | "Mixin" => some .Mixin
  | "Modifier" => some .Modifier
  | "Module" => some .Module
  | "Namespace" => some .Namespace
  | "Null" => some .Null
  | "Number" => some .Number
  | "Object" => some .Object
  | "Operator" => some .Operator
  | "Package" => some .Package
  | "PackageObject" => some .PackageObject
  | "Parameter" => some .Parameter
  | "ParameterLabel" => some .ParameterLabel
  | "Pattern" => some .Pattern
  | "Predicate" => some .Predicate
  | "Property" => some .Property
  | "Protocol" => some .Protocol
  | "ProtocolMethod" => some .ProtocolMethod
  | "PureVirtualMethod" => some .PureVirtualMethod
  | "Quasiquoter" => some .Quasiquoter
  | "SelfParameter" => some .SelfParameter
  | "Setter" => some .Setter
  | "Signature" => some .Signature
  | "SingletonClass" => some .SingletonClass
  | "SingletonMethod" => some .SingletonMethod
  | "StaticDataMember" => some .StaticDataMember
  | "StaticEvent" => some .StaticEvent
  | "StaticField" => some .StaticField
  | "StaticMethod" => some .StaticMethod
  | "StaticProperty" => some .StaticProperty
  | "StaticVariable" => some .StaticVariable
  | "String" => some .String
  | "Struct" => some .Struct
  | "Subscript" => some .Subscript
  | "Tactic" => some .Tactic
  | "Theorem" => some .Theorem
  | "ThisParameter" => some .ThisParameter
  | "Trait" => some .Trait
  | "TraitMethod" => some .TraitMethod
  | "Type" => some .«Type»
  | "TypeAlias" => some .TypeAlias
  | "TypeClass" => some .TypeClass
  | "TypeClassMethod" => some .TypeClassMethod
  | "TypeFamily" => some .TypeFamily
  | "TypeParameter" => some .TypeParameter
  | "Union" => some .Union
  | "Value" => some .Value
  | "Variable" => some .Variable
  | _ => none

set_option maxHeartbeats 2000000 in
/-- `SymbolKind::iter` (strum `EnumIter`): all variants in declaration
order. -/
def allSymbolKinds : List SymbolKind :=
  [ .Unknown, .AbstractMethod, .Accessor, .Array, .Assertion, .AssociatedType,
    .Attribute, .Axiom, .Boolean, .Class, .Concept, .Constant, .Constructor,
    .Contract, .DataFamily, .Delegate, .Enum, .EnumMember, .Error, .Event,
    .Extension, .Fact, .Field, .File, .Function, .Getter, .Grammar, .Instance,
    .Interface, .Key, .Lang, .Lemma, .Library, .Macro, .Method, .MethodAlias,
    .MethodReceiver, .MethodSpecification, .Message, .Mixin, .Modifier,
    .Module, .Namespace, .Null, .Number, .Object, .Operator, .Package,
    .PackageObject, .Parameter, .ParameterLabel, .Pattern, .Predicate,
    .Property, .Protocol, .ProtocolMethod, .PureVirtualMethod, .Quasiquoter,
    .SelfParameter, .Setter, .Signature, .SingletonClass, .SingletonMethod,
    .StaticDataMember, .StaticEvent, .StaticField, .StaticMethod,
    .StaticProperty, .StaticVariable, .String, .Struct, .Subscript, .Tactic,
    .Theorem, .ThisParameter, .Trait, .TraitMethod, .«Type», .TypeAlias,
    .TypeClass, .TypeClassMethod, .TypeFamily, .TypeParameter, .Union,
    .Value, .Variable ]

/-! ## `models/resolved` and `resolver/scoring.rs` -/

/-- A flattened `symbol JOIN file` row materialized by the resolver
(`ResolvedSymbol`); the score defaults to `DEFAULT_SCORE` and is replaced
just-in-time by `calculate_score`. -/
structure ResolvedSymbol where
  id : Int
  name : String
  kind : SymbolKind
  path : List String
  score : Int := DEFAULT_SCORE
  start_line : Int
  end_line : Int
  start_column : Int
  end_column : Int
deriving DecidableEq, Repr

/-- `calculate_score`: the default score plus the entrypoint penalty, the
summed fuzzy-match bonuses, the kind bonus or penalty, the test-harness
penalty and the distance penalty, combined with saturating i64 addition. -/
def calculate_score (symbol : ResolvedSymbol) (fuzzy_matches : List FuzzyMatch)
    (current_file : Option (List String)) : Int :=
  let filename : Option String := fileName symbol.path
  let entrypoint_file_penalty : Int :=
    match filename with
    | some f => if is_entrypoint_file f then ENTRYPOINT_FILE_SCORE_PENALTY else 0
    | none => 0
  let fuzzy_match_bonus : Int := (fuzzy_matches.map calculate_fuzzy_match_bonus).sum
  let symbol_kind_bonus : Int :=
    match symbol.kind with
    | .Function | .Method | .Struct | .«Type» | .TypeAlias | .Class
    | .Constant | .Enum | .EnumMember | .Interface => COMMON_SYMBOL_KINDS_SCORE_BONUS
    | .Variable => INFREQUENT_SYMBOL_KINDS_SCORE_BONUS
    | .Package | .Module | .SelfParameter => UNCOMMON_SYMBOL_KINDS_SCORE_PENALTY
    | _ => 0
  let test_harness_penalty : Int :=
    if is_part_of_test_harness symbol.path then TEST_HARNESS_SCORE_PENALTY else 0
  let distance_penalty : Int :=
    match current_file with
    | none => 0
    | some current_file =>
        calculate_distance_score_penalty (get_path_distance current_file symbol.path)
  satAdd (satAdd (satAdd (satAdd (satAdd DEFAULT_SCORE
    entrypoint_file_penalty) fuzzy_match_bonus) symbol_kind_bonus)
    test_harness_penalty) distance_penalty

/-! ## Basic facts about the scoring arithmetic -/

/-- Saturating addition stays inside the i64 range, so adding a saturated
zero is the identity. -/
theorem satAdd_satAdd_zero (a b : Int) : satAdd (satAdd a b) 0 = satAdd a b := by
  unfold satAdd i64Min i64Max
  omega

/-- Concrete inputs exhibiting a path distance of one between the focused
file and a symbol's file. -/
def exCurrentFile : List String := ["dir1", "x", "f2.rs"]

/-- A symbol of kind `Unknown` in a plain file one directory away from
`exCurrentFile`, attracting no other bonus or penalty. -/
def exSymbolDistance : ResolvedSymbol :=
  { id := 1, name := "s", kind := .Unknown, path := ["dir1", "f.rs"],
    start_line := 1, end_line := 1, start_column := 1, end_column := 2 }

/-- C1, counterexample: at distance 1 the score moves by −1, not by
−min(1, 8) × 10 = −10, refuting the claimed −10-per-directory penalty. -/
theorem distance_penalty_not_ten_per_directory :
    get_path_distance exCurrentFile exSymbolDistance.path = 1 ∧
    calculate_score exSymbolDistance [] (some exCurrentFile) -
      calculate_score exSymbolDistance [] none = -1 ∧
    calculate_score exSymbolDistance [] (some exCurrentFile) -
      calculate_score exSymbolDistance [] none ≠
      -(min ((get_path_distance exCurrentFile exSymbolDistance.path : Nat) : Int) 8 * 10) := by
  decide

/-- C1, amended: the distance penalty is −min(distance, 8) — one point
(0.1% of the default score) per directory, capped at 8 — and with a
current file the final score is the distance-free score plus exactly that
penalty (saturating). -/
theorem distance_penalty_amended :
    (∀ d : Nat, calculate_distance_score_penalty d = -(min (d : Int) 8)) ∧
    (∀ (symbol : ResolvedSymbol) (fuzzy_matches : List FuzzyMatch)
        (current_file : List String),
      calculate_score symbol fuzzy_matches (some current_file) =
        satAdd (calculate_score symbol fuzzy_matches none)
          (calculate_distance_score_penalty
            (get_path_distance current_file symbol.path))) := by
  constructor
  · intro d
    unfold calculate_distance_score_penalty
    by_cases h0 : d = 0
    · subst h0; simp
    · simp only [if_neg h0]
      by_cases hle : (d : Int) ≤ i64Max
      · simp only [if_pos hle]
        have hcancel : (DEFAULT_SCORE * min (d : Int) 8) / 1000 = min (d : Int) 8 := by
          unfold DEFAULT_SCORE
          exact Int.mul_ediv_cancel_left _ (by norm_num)
        rw [hcancel]
      · simp only [if_neg hle]
        have h8 : (8 : Int) ≤ (d : Int) := by unfold i64Max at hle; omega
        have hmin : min ((d : Int)) 8 = 8 := min_eq_right h8
        have hcancel : (DEFAULT_SCORE * min (8 : Int) 8) / 1000 = 8 := by
          unfold DEFAULT_SCORE; norm_num
        rw [hcancel, hmin]
  · intro symbol fuzzy_matches current_file
    simp only [calculate_score]
    rw [satAdd_satAdd_zero]

/-- C8: each fuzzy match contributes `(score / 5) * 2` when exact and
`min(score / 4, 40)` otherwise, so a non-exact match never adds more
than 40. -/
theorem fuzzy_match_bonus_formula :
    (∀ m : FuzzyMatch, calculate_fuzzy_match_bonus m =
        if m.exact then ((m.score : Int) / 5) * 2
        else min ((m.score : Int) / 4) 40) ∧
    (∀ s : Nat, calculate_fuzzy_match_bonus { score := s, exact := false } ≤ 40) := by
  constructor
  · intro m
    unfold calculate_fuzzy_match_bonus
    norm_num [DEFAULT_SCORE]
  · intro s
    unfold calculate_fuzzy_match_bonus
    norm_num [DEFAULT_SCORE]

/-! ## Facts about `get_path_distance` -/

/-- Zipping a list with itself extended by a tail pairs every element with
itself. -/
theorem zip_append_self {α : Type} (a t : List α) :
    a.zip (a ++ t) = a.map (fun x => (x, x)) := by
  induction a with
  | nil => rfl
  | cons x xs ih =>
    simp only [List.cons_append, List.zip_cons_cons, List.map_cons]
    exact congrArg _ ih

/-- The common-prefix count of a list with any extension of itself is its
full length. -/
theorem commonPartsCount_self_append (a t : List String) :
    commonPartsCount a (a ++ t) = a.length := by
  unfold commonPartsCount
  rw [zip_append_self]
  induction a with
  | nil => rfl
  | cons x xs ih => simpa [List.takeWhile] using ih

/-- C10: the common-prefix count never exceeds the component count of the
first parent (so the `usize` subtraction in `get_path_distance` cannot
underflow), and the distance is 0 whenever the non-empty components of
`a`'s parent are a prefix of those of `b`'s parent — not only when the two
parent strings are identical. -/
theorem get_path_distance_no_underflow_and_prefix_zero :
    (∀ a b : List String,
      commonPartsCount (splitParts (parentDirString a)) (splitParts (parentDirString b)) ≤
        (splitParts (parentDirString a)).length) ∧
    (∀ a b : List String,
      splitParts (parentDirString a) <+: splitParts (parentDirString b) →
      get_path_distance a b = 0) := by
  constructor
  · intro a b
    calc commonPartsCount (splitParts (parentDirString a)) (splitParts (parentDirString b)) ≤
          ((splitParts (parentDirString a)).zip (splitParts (parentDirString b))).length :=
            (List.takeWhile_prefix _).length_le
      _ ≤ (splitParts (parentDirString a)).length := by
            rw [List.length_zip]; exact Nat.min_le_left _ _
  · intro a b hpre
    unfold get_path_distance
    by_cases heq : parentDirString a = parentDirString b
    · simp [heq]
    · simp only [if_neg heq]
      obtain ⟨t, ht⟩ := hpre
      rw [← ht, commonPartsCount_self_append, Nat.sub_self]

/-- C10, witness: concrete sibling-directory paths where `a`'s parent is a
proper component-prefix of `b`'s parent, giving distance 0. -/
theorem get_path_distance_prefix_zero_witness :
    splitParts (parentDirString ["some", "path", "mod.rs"]) <+:
      splitParts (parentDirString ["some", "path", "deeper", "other.rs"]) ∧
    get_path_distance ["some", "path", "mod.rs"] ["some", "path", "deeper", "other.rs"] = 0 :=
  ⟨by decide, get_path_distance_no_underflow_and_prefix_zero.2 _ _ (by decide)⟩

/-! ## `models/parsed`: languages, ranges, occurrences, symbols -/

/-- The closed enumeration of supported languages. -/
inductive Language where
  | Go
  | Rust
  | Lua
  | TypeScript
  | TypeScriptJsx
  | Javascript
  | JavascriptJsx
  | Clojure
deriving DecidableEq, Repr

/-- A start and end position in a source file, 1-based on both axes
(`models/parsed/symbol_range.rs`). -/
structure Range where
  start_line : Nat
  end_line : Nat
  start_column : Nat
  end_column : Nat
deriving DecidableEq, Repr

/-- `Range::new(start_line, end_line, start_column, end_column)`. -/
def Range.new (start_line end_line start_column end_column : Nat) : Range :=
  { start_line, end_line, start_column, end_column }

/-- The role an occurrence plays for a symbol: its definition, or an
unclassified role. -/
inductive SymbolRole where
  | Definition
  | Other (role : String)
deriving DecidableEq, Repr

/-- An occurrence of a symbol in a file: language, absolute path, range and
roles.  The `Roles` newtype around the role vector is modelled as the list
itself. -/
structure Occurrence where
  language : Language
  absolute_path : List String
  range : Range
  roles : List SymbolRole
deriving DecidableEq, Repr

/-- A parsed symbol: kind, name, optional definition occurrence, and the
remaining occurrences. -/
structure Symbol where
  kind : SymbolKind
  name : String
  definition : Option Occurrence
  occurrences : List Occurrence
deriving DecidableEq, Repr

/-- `Symbol::new`: a fresh symbol with no occurrences. -/
def Symbol.new (kind : SymbolKind) (name : String) : Symbol :=
  { kind, name, occurrences := [], definition := none }

/-- `Symbol::add_occurrence`: the first occurrence carrying the
`Definition` role becomes the definition; everything else is appended to
the occurrence list. -/
def Symbol.add_occurrence (s : Symbol) (occurrence : Occurrence) : Symbol :=
  if s.definition.isNone && occurrence.roles.contains SymbolRole.Definition then
    { s with definition := some occurrence }
  else
    { s with occurrences := s.occurrences ++ [occurrence] }

/-- The `PartialEq` implementation for `Symbol`: the kind is deliberately
not compared; when both sides have a definition the comparison is on
(name, definition), otherwise on (name, occurrences). -/
def symbolEqBool (a b : Symbol) : Bool :=
  match a.definition, b.definition with
  | some self_definition, some other_definition =>
      a.name == b.name && self_definition == other_definition
  | _, _ => a.name == b.name && a.occurrences == b.occurrences

/-- The data the `Hash` implementation for `Symbol` feeds to the hasher
(the kind is not fed): the name, then the definition occurrence when
present, otherwise the occurrence list.  The two branches write different
shapes to the hasher — an occurrence's fields versus a length-prefixed
vector — which the sum distinguishes. -/
def symbolHashInput (s : Symbol) : String × (Occurrence ⊕ List Occurrence) :=
  (s.name,
   match s.definition with
   | some definition => Sum.inl definition
   | none => Sum.inr s.occurrences)

/-- The parser's symbol index: a `HashSet<Symbol>` under the equality
above, modelled as a duplicate-free list in insertion order. -/
structure Index where
  symbols : List Symbol
deriving Repr

/-- `Index::new`: empty index. -/
def Index.new : Index := { symbols := [] }

/-- `Index::append_symbol` = `HashSet::insert`: a symbol equal (under
`symbolEqBool`) to a present one is dropped, keeping the existing entry. -/
def Index.append_symbol (i : Index) (symbol : Symbol) : Index :=
  if i.symbols.any (fun s => symbolEqBool s symbol) then i
  else { symbols := i.symbols ++ [symbol] }

/-! ## `utils.rs::normalise_symbol_name` and the tree-sitter parser -/

/-- Rust `char::is_whitespace`, restricted to the ASCII whitespace
characters (the sources only ever produce ASCII whitespace here). -/
def isRustWhitespace (c : Char) : Bool :=
  c = ' ' || c = '\t' || c = '\n' || c = '\r' ||
  c = Char.ofNat 11 || c = Char.ofNat 12

/-- `str::trim` on the character list. -/
def trimChars (cs : List Char) : List Char :=
  ((cs.dropWhile isRustWhitespace).reverse.dropWhile isRustWhitespace).reverse

/-- `str::replace("\r\n", "\n")`: left-to-right, non-overlapping. -/
def replaceCrLf : List Char → List Char
  | '\r' :: '\n' :: rest => '\n' :: replaceCrLf rest
  | c :: rest => c :: replaceCrLf rest
  | [] => []

/-- `normalise_symbol_name`: trim whitespace, then normalise CR-LF to
LF. -/
def normalise_symbol_name (name : String) : String :=
  String.mk (replaceCrLf (trimChars name.data))

/-- One query-match capture as handed to `extract_symbols` by tree-sitter:
the capture's name, the UTF-8 text of the node (`none` when `utf8_text`
fails), and the node's 0-based start and end positions. -/
structure Capture where
  capture_name : String
  node_text : Option String
  start_row : Nat
  start_col : Nat
  end_row : Nat
  end_col : Nat
deriving DecidableEq, Repr

/-- `Parser::extract_symbols`: for each capture, look the capture name up
as a `SymbolKind` (skipping unrecognized names), take the node text
(skipping UTF-8 failures), normalise it (skipping empty names), then build
a symbol whose single occurrence carries the `Definition` role and the
node's positions converted from 0-based to 1-based. -/
def extract_symbols (language : Language) (file : List String) :
    List Capture → List Symbol
  | [] => []
  | c :: rest =>
    match symbolKindFromString c.capture_name with
    | none => extract_symbols language file rest
    | some kind =>
      match c.node_text with
      | none => extract_symbols language file rest
      | some text =>
        let name := normalise_symbol_name text
        if name.isEmpty then extract_symbols language file rest
        else
          let symbol := Symbol.new kind name
          let occurrence : Occurrence :=
            { language := language, absolute_path := file,
              range := Range.new (c.start_row + 1) (c.end_row + 1)
                (c.start_col + 1) (c.end_col + 1),
              roles := [SymbolRole.Definition] }
          symbol.add_occurrence occurrence :: extract_symbols language file rest

/-- The loop in `Parser::parse` that folds the extracted symbols into the
deduplicating index. -/
def indexOfSymbols (symbols : List Symbol) : Index :=
  symbols.foldl Index.append_symbol Index.new

/-! ## Symbol equality, hashing, and parser range facts -/

/-- A definition occurrence shared by the example symbols below. -/
def exDefinitionOccurrence : Occurrence :=
  { language := .Rust, absolute_path := ["src", "lib.rs"],
    range := Range.new 3 3 4 10, roles := [.Definition] }

/-- A `Function` symbol named `foo` with a definition occurrence. -/
def exFunctionSymbol : Symbol :=
  { kind := .Function, name := "foo",
    definition := some exDefinitionOccurrence, occurrences := [] }

/-- A `Method` symbol with the same name and definition occurrence as
`exFunctionSymbol`. -/
def exMethodSymbol : Symbol :=
  { kind := .Method, name := "foo",
    definition := some exDefinitionOccurrence, occurrences := [] }

/-- A symbol with the same name as `exFunctionSymbol`, no definition and no
occurrences. -/
def exSymbolNoDefinition : Symbol :=
  { kind := .Function, name := "foo", definition := none, occurrences := [] }

/-- C6: symbol equality and the hashed data ignore the kind; equality is
over (name, definition) when both sides have definitions and over
(name, occurrences) when neither does; and a `Function` and a `Method`
with the same name and definition occurrence compare equal and collapse to
one entry when appended to an index. -/
theorem symbol_identity_kind_agnostic :
    (∀ (a b : Symbol) (k₁ k₂ : SymbolKind),
      symbolEqBool { a with kind := k₁ } { b with kind := k₂ } = symbolEqBool a b) ∧
    (∀ (a : Symbol) (k : SymbolKind),
      symbolHashInput { a with kind := k } = symbolHashInput a) ∧
    (∀ (k₁ k₂ : SymbolKind) (n₁ n₂ : String) (d₁ d₂ : Occurrence)
        (o₁ o₂ : List Occurrence),
      (symbolEqBool ⟨k₁, n₁, some d₁, o₁⟩ ⟨k₂, n₂, some d₂, o₂⟩ = true ↔
        n₁ = n₂ ∧ d₁ = d₂) ∧
      (symbolEqBool ⟨k₁, n₁, none, o₁⟩ ⟨k₂, n₂, none, o₂⟩ = true ↔
        n₁ = n₂ ∧ o₁ = o₂)) ∧
    (symbolEqBool exFunctionSymbol exMethodSymbol = true ∧
      ((Index.new.append_symbol exFunctionSymbol).append_symbol exMethodSymbol).symbols =
        [exFunctionSymbol]) := by
  refine ⟨?_, ?_, ?_, ?_⟩
  · intro a b k₁ k₂; cases a; cases b; rfl
  · intro a k; cases a; rfl
  · intro k₁ k₂ n₁ n₂ d₁ d₂ o₁ o₂
    constructor
    · simp [symbolEqBool]
    · simp [symbolEqBool]
  · decide

/-- C9, counterexample: a symbol with a definition and one without can
compare equal through the occurrences branch while feeding different data
to the hasher, so hashing is not consistent with equality in general. -/
theorem symbol_hash_eq_inconsistent :
    symbolEqBool exFunctionSymbol exSymbolNoDefinition = true ∧
    symbolHashInput exFunctionSymbol ≠ symbolHashInput exSymbolNoDefinition := by
  decide

/-- C9, amended: hashing is consistent with equality for symbols that
either both have a definition or both lack one — in particular for
everything the tree-sitter parser emits, which always attaches a
definition. -/
theorem symbol_hash_consistent_when_alike :
    ∀ a b : Symbol, a.definition.isSome = b.definition.isSome →
      symbolEqBool a b = true → symbolHashInput a = symbolHashInput b := by
  intro a b hsame heq
  unfold symbolEqBool at heq
  unfold symbolHashInput
  cases hda : a.definition with
  | none =>
    cases hdb : b.definition with
    | none =>
      rw [hda, hdb] at heq
      simp only [Bool.and_eq_true, beq_iff_eq] at heq
      rw [heq.1, heq.2]
    | some db => rw [hda, hdb] at hsame; simp at hsame
  | some da =>
    cases hdb : b.definition with
    | none => rw [hda, hdb] at hsame; simp at hsame
    | some db =>
      rw [hda, hdb] at heq
      simp only [Bool.and_eq_true, beq_iff_eq] at heq
      rw [heq.1, heq.2]

/-- C9, witness: the amended consistency applied to the equal
`Function`/`Method` pair, which both carry definitions. -/
theorem symbol_hash_consistent_witness :
    exFunctionSymbol.definition.isSome = exMethodSymbol.definition.isSome ∧
    symbolEqBool exFunctionSymbol exMethodSymbol = true ∧
    symbolHashInput exFunctionSymbol = symbolHashInput exMethodSymbol :=
  ⟨by decide, by decide,
    symbol_hash_consistent_when_alike exFunctionSymbol exMethodSymbol
      (by decide) (by decide)⟩

/-- The capture used to check the zero-position round trip. -/
def exCaptureZero : Capture :=
  { capture_name := "Function", node_text := some "f",
    start_row := 0, start_col := 0, end_row := 0, end_col := 0 }

/-- The symbol `extract_symbols` produces for `exCaptureZero`. -/
def exSymbolZero : Symbol :=
  (Symbol.new .Function "f").add_occurrence
    { language := .Rust, absolute_path := ["main.rs"],
      range := Range.new 1 1 1 1, roles := [.Definition] }

/-- C7: every symbol the parser emits carries a definition occurrence
whose range is some capture's 0-based positions with 1 added to each of
the four coordinates — hence every coordinate is at least 1 — and a node
at (0,0) produces `Range(1,1,1,1)`. -/
theorem parser_ranges_one_based :
    (∀ (language : Language) (file : List String) (captures : List Capture)
        (s : Symbol), s ∈ extract_symbols language file captures →
      ∃ d : Occurrence, s.definition = some d ∧
        (∃ c ∈ captures,
          d.range = Range.new (c.start_row + 1) (c.end_row + 1)
            (c.start_col + 1) (c.end_col + 1)) ∧
        1 ≤ d.range.start_line ∧ 1 ≤ d.range.end_line ∧
        1 ≤ d.range.start_column ∧ 1 ≤ d.range.end_column) ∧
    (extract_symbols .Rust ["main.rs"] [exCaptureZero]).map
      (fun s => s.definition.map (fun d => d.range)) = [some (Range.new 1 1 1 1)] := by
  constructor
  · intro language file captures
    induction captures with
    | nil => intro s hs; simp [extract_symbols] at hs
    | cons c rest ih =>
      intro s hs
      simp only [extract_symbols] at hs
      split at hs
      · obtain ⟨d, hd, ⟨c', hc', hr⟩, h1⟩ := ih s hs
        exact ⟨d, hd, ⟨c', List.mem_cons_of_mem _ hc', hr⟩, h1⟩
      · split at hs
        · obtain ⟨d, hd, ⟨c', hc', hr⟩, h1⟩ := ih s hs
          exact ⟨d, hd, ⟨c', List.mem_cons_of_mem _ hc', hr⟩, h1⟩
        · split at hs
          · obtain ⟨d, hd, ⟨c', hc', hr⟩, h1⟩ := ih s hs
            exact ⟨d, hd, ⟨c', List.mem_cons_of_mem _ hc', hr⟩, h1⟩
          · rcases List.mem_cons.mp hs with hhead | htail
            · subst hhead
              exact ⟨_, rfl, ⟨c, List.mem_cons_self _ _, rfl⟩,
                Nat.le_add_left 1 _, Nat.le_add_left 1 _,
                Nat.le_add_left 1 _, Nat.le_add_left 1 _⟩
            · obtain ⟨d, hd, ⟨c', hc', hr⟩, h1⟩ := ih s htail
              exact ⟨d, hd, ⟨c', List.mem_cons_of_mem _ hc', hr⟩, h1⟩
  · decide

/-- C7, witness: the round-trip symbol for a capture at the zero position
is in the parser output and satisfies the range property. -/
theorem parser_ranges_one_based_witness :
    exSymbolZero ∈ extract_symbols Language.Rust ["main.rs"] [exCaptureZero] ∧
    (∃ d : Occurrence, exSymbolZero.definition = some d ∧
      (∃ c ∈ [exCaptureZero],
        d.range = Range.new (c.start_row + 1) (c.end_row + 1)
          (c.start_col + 1) (c.end_col + 1)) ∧
      1 ≤ d.range.start_line ∧ 1 ≤ d.range.end_line ∧
      1 ≤ d.range.start_column ∧ 1 ≤ d.range.end_column) :=
  ⟨by decide,
    parser_ranges_one_based.1 Language.Rust ["main.rs"] [exCaptureZero]
      exSymbolZero (by decide)⟩

/-! ## `resolver/database_backed_resolver.rs`: the query task

The streaming query task is modelled as a pure function from the joined
`symbol JOIN file` table (in stream order) to the list of symbols
delivered on the channel.  The external SIMD matcher is a parameter, and
`budget` is the number of channel sends that succeed before one fails
(`Closed` or `Timeout`), at which point the task breaks out of the loop. -/

/-- The context a query runs in (`resolver/types.rs::Context`). -/
structure QueryContext where
  current_file : Option (List String)
  symbol_kinds : Option (List SymbolKind)

/-- `scoring.rs::fuzzy_match`: run the matcher over the two candidate
strings `"{path}:{name}"` and `"{name}"`, composite first. -/
def fuzzy_match (matcher : String → List String → List FuzzyMatch)
    (query : String) (symbol : ResolvedSymbol) : List FuzzyMatch :=
  let path := pathToString symbol.path
  let path_symbol_prefix := path ++ ":" ++ symbol.name
  matcher query [ path_symbol_prefix, symbol.name]

/-- The row loop of the spawned query task: fuzzy-match each row, drop it
when a non-empty query produced no matches, score it, drop it when the
score fell below `DEFAULT_SCORE`, and otherwise send it — a failed send
terminates the task. -/
def deliverRows (matcher : String → List String → List FuzzyMatch)
    (query : String) (current_file : Option (List String)) :
    List ResolvedSymbol → Nat → List ResolvedSymbol
  | [], _ => []
  | row :: rest, budget =>
    let fuzzy_matches := fuzzy_match matcher query row
    if !query.isEmpty && fuzzy_matches.isEmpty then
      deliverRows matcher query current_file rest budget
    else
      let scored := { row with score := calculate_score row fuzzy_matches current_file }
      if scored.score < DEFAULT_SCORE then
        deliverRows matcher query current_file rest budget
      else
        match budget with
        | 0 => []
        | b + 1 => scored :: deliverRows matcher query current_file rest b

/-- `Resolver::query`: resolve the candidate kind set (all kinds when the
context provides none), restrict the table by kind as the interpolated
`WHERE symbol.kind IN (…)` clause does, and run the row loop. -/
def query_model (matcher : String → List String → List FuzzyMatch)
    (query : String) (ctx : QueryContext) (table : List ResolvedSymbol)
    (budget : Nat) : List ResolvedSymbol :=
  let supported_symbols :=
    match ctx.symbol_kinds with
    | none => allSymbolKinds
    | some ks => if ks.isEmpty then allSymbolKinds else ks
  deliverRows matcher query ctx.current_file
    (table.filter (fun row => supported_symbols.contains row.kind)) budget

/-- Every symbol the row loop emits has score at least the default. -/
theorem deliverRows_score_ge (matcher : String → List String → List FuzzyMatch)
    (query : String) (current_file : Option (List String)) :
    ∀ (rows : List ResolvedSymbol) (budget : Nat) (s : ResolvedSymbol),
      s ∈ deliverRows matcher query current_file rows budget →
      DEFAULT_SCORE ≤ s.score := by
  intro rows
  induction rows with
  | nil => intro budget s hs; simp [deliverRows] at hs
  | cons row rest ih =>
    intro budget s hs
    simp only [deliverRows] at hs
    split at hs
    · exact ih budget s hs
    · split at hs
      · exact ih budget s hs
      · split at hs
        · exact absurd hs (List.not_mem_nil s)
        · rcases List.mem_cons.mp hs with hh | ht
          · subst hh
            next h _ _ => exact not_lt.mp h
          · exact ih _ s ht

/-- C3: every symbol a query delivers has score at least `DEFAULT_SCORE`
(1000); rows whose computed score falls below the default are dropped
before the send. -/
theorem query_delivers_only_default_or_better :
    ∀ (matcher : String → List String → List FuzzyMatch) (query : String)
      (ctx : QueryContext) (table : List ResolvedSymbol) (budget : Nat)
      (s : ResolvedSymbol),
      s ∈ query_model matcher query ctx table budget →
      DEFAULT_SCORE ≤ s.score := by
  intro matcher query ctx table budget s hs
  unfold query_model at hs
  exact deliverRows_score_ge matcher query ctx.current_file _ budget s hs

/-- A `Function` row used to exercise the query pipeline. -/
def exQueryRow : ResolvedSymbol :=
  { id := 7, name := "run", kind := .Function, path := ["app", "run.rs"],
    start_line := 2, end_line := 2, start_column := 4, end_column := 7 }

/-- C3, witness: with an empty query and no context the `Function` row is
delivered with score 1035 ≥ 1000. -/
theorem query_delivers_only_default_or_better_witness :
    { exQueryRow with score := 1035 } ∈
      query_model (fun _ _ => []) "" ⟨none, none⟩ [exQueryRow] 5 ∧
    DEFAULT_SCORE ≤ ({ exQueryRow with score := 1035 } : ResolvedSymbol).score :=
  ⟨by decide,
    query_delivers_only_default_or_better (fun _ _ => []) "" ⟨none, none⟩
      [exQueryRow] 5 _ (by decide)⟩

/-! ## `indexer/database_backed_indexer.rs`: the relational store

The SQLite store is modelled as explicit `file` and `symbol` row lists.
`index_file` mirrors the per-file transaction: upsert the file row by
unique path, delete that file's symbols, insert the freshly parsed ones,
and commit — an error before the commit surfaces as `.error` and the
caller's store is unchanged (sqlx rolls a dropped transaction back). -/

/-- `parser::Error`, payloads reduced to what the embedding tracks. -/
inductive ParserError where
  | InvalidUri (uri : String)
  | InvalidFile
  | InvalidLanguage
  | InvalidQuery
deriving DecidableEq, Repr

/-- `indexer::Error`, payloads reduced to what the embedding tracks. -/
inductive IndexerError where
  | DatabaseFileError (path : List String)
  | InvalidPath (path : List String) (reason : String)
  | ParsingFailed (e : ParserError)
  | QueryFailed
  | MigrationFailed
  | InvalidRange (range : Range)
deriving DecidableEq, Repr

/-- A row of `file(id, path UNIQUE, indexed_at)`. -/
structure FileRow where
  id : Int
  path : String
  indexed_at : Int
deriving DecidableEq, Repr

/-- A row of `symbol(id, kind, name, file_id, start_line, start_column,
end_line, end_column, indexed_at)`. -/
structure SymbolRow where
  id : Int
  kind : SymbolKind
  name : String
  file_id : Int
  start_line : Int
  start_column : Int
  end_line : Int
  end_column : Int
  indexed_at : Int
deriving DecidableEq, Repr

/-- The store: the two tables. -/
structure Store where
  files : List FileRow
  symbols : List SymbolRow
deriving DecidableEq, Repr

/-- `is_inside_workspace`: the path descends from some registered root. -/
def is_inside_workspace (workspaces : List (List String)) (path : List String) : Bool :=
  workspaces.any (fun workspace => pathStartsWith path workspace)

/-- `i32::try_from` on a `usize` coordinate. -/
def tryIntoI32 (n : Nat) : Option Int :=
  if n ≤ i32Max then some (n : Int) else none

/-- A fresh primary-key value for the `file` table. -/
def freshFileId (files : List FileRow) : Int :=
  (files.map FileRow.id).foldr max 0 + 1

/-- A fresh primary-key value for the `symbol` table. -/
def freshSymbolId (symbols : List SymbolRow) : Int :=
  (symbols.map SymbolRow.id).foldr max 0 + 1

/-- The `INSERT … ON CONFLICT(path) DO UPDATE SET indexed_at = … RETURNING
id` upsert: refresh the row with this unique path when it exists, create
it otherwise; either way return the row id. -/
def upsertFile (files : List FileRow) (path : String) (now : Int) :
    Int × List FileRow :=
  match files.find? (fun f => f.path == path) with
  | some f =>
      (f.id, files.map (fun g => if g.path == path then { g with indexed_at := now } else g))
  | none =>
      (freshFileId files, files ++ [{ id := freshFileId files, path := path, indexed_at := now }])

/-- The symbol-insert loop of `index_file`: a symbol without a definition
is skipped (with a warning); a definition whose path disagrees with the
indexed file is warned about but still inserted; each range coordinate is
converted to `i32`, any overflow aborting with `InvalidRange`. -/
def insertSymbolRows (file_id now : Int) : Int → List Symbol →
    Except IndexerError (List SymbolRow)
  | _, [] => .ok []
  | next_id, symbol :: rest =>
    match symbol.definition with
    | none => insertSymbolRows file_id now next_id rest
    | some definition =>
      match tryIntoI32 definition.range.start_line,
            tryIntoI32 definition.range.start_column,
            tryIntoI32 definition.range.end_line,
            tryIntoI32 definition.range.end_column with
      | some start_line, some start_column, some end_line, some end_column =>
        (insertSymbolRows file_id now (next_id + 1) rest).map
          (fun rows =>
            { id := next_id, kind := symbol.kind, name := symbol.name,
              file_id := file_id, start_line := start_line,
              start_column := start_column, end_line := end_line,
              end_column := end_column, indexed_at := now } :: rows)
      | _, _, _, _ => .error (.InvalidRange definition.range)

/-- `index_file`: validations, parse result, then the transaction (file
upsert, symbol wipe for that file id, symbol inserts, commit). -/
def index_file (st : Store) (workspaces : List (List String)) (path : List String)
    (path_exists path_is_file : Bool) (parsed : Except ParserError (List Symbol))
    (now : Int) : Except IndexerError Store :=
  if !path_exists then
    .error (.InvalidPath path "File does not exist")
  else if !path_is_file then
    .error (.InvalidPath path "Path is not a file")
  else if !(is_inside_workspace workspaces path) then
    .error (.InvalidPath path "File is not inside any registered workspace")
  else
    match parsed with
    | .error e => .error (.ParsingFailed e)
    | .ok index_symbols =>
      let upserted := upsertFile st.files (pathToString path) now
      let remaining := st.symbols.filter (fun r => r.file_id ≠ upserted.1)
      match insertSymbolRows upserted.1 now (freshSymbolId st.symbols) index_symbols with
      | .error e => .error e
      | .ok new_rows => .ok { files := upserted.2, symbols := remaining ++ new_rows }

/-- The caller's view of the store after `index_file`: the committed state
on success, the untouched original on failure (transaction rollback). -/
def index_file_run (st : Store) (workspaces : List (List String)) (path : List String)
    (path_exists path_is_file : Bool) (parsed : Except ParserError (List Symbol))
    (now : Int) : Store :=
  match index_file st workspaces path path_exists path_is_file parsed now with
  | .ok st' => st'
  | .error _ => st

/-- The ids of the file rows stored under a path. -/
def fileIdsFor (st : Store) (path : String) : List Int :=
  (st.files.filter (fun f => f.path == path)).map FileRow.id

/-- The symbol rows stored for a path (via their file-row reference). -/
def symbolsFor (st : Store) (path : String) : List SymbolRow :=
  st.symbols.filter (fun r => (fileIdsFor st path).contains r.file_id)

/-- The claim-relevant payload of a symbol row: everything except the
auto-assigned id, the file reference and the timestamp. -/
def SymbolRow.data (r : SymbolRow) : SymbolKind × String × Int × Int × Int × Int :=
  (r.kind, r.name, r.start_line, r.start_column, r.end_line, r.end_column)

/-- The row payload a parsed symbol turns into, when it has a definition. -/
def emittedRowData (s : Symbol) : Option (SymbolKind × String × Int × Int × Int × Int) :=
  s.definition.map (fun d =>
    (s.kind, s.name, (d.range.start_line : Int), (d.range.start_column : Int),
     (d.range.end_line : Int), (d.range.end_column : Int)))

/-- Store well-formedness: primary keys and the `UNIQUE(path)` constraint
on `file`. -/
def Store.WF (st : Store) : Prop :=
  (st.files.map FileRow.id).Nodup ∧ (st.files.map FileRow.path).Nodup

/-! ## SQLite `LIKE` and `deindex` -/

/-- ASCII lower-casing, as SQLite's default `LIKE` applies to both sides. -/
def asciiLower (c : Char) : Char :=
  if 'A' ≤ c ∧ c ≤ 'Z' then Char.ofNat (c.toNat + 32) else c

/-- SQLite `LIKE` matching over character lists: `%` matches any sequence,
`_` any single character, anything else itself ASCII-case-insensitively.
The fuel argument only forces termination; `likeMatch` supplies enough
fuel that the `0` branch is never reached. -/
def likeCharsFuel : Nat → List Char → List Char → Bool
  | 0, _, _ => false
  | fuel + 1, ps, s =>
    match ps with
    | [] => s.isEmpty
    | p :: pt =>
      if p = '%' then
        likeCharsFuel fuel pt s ||
          (match s with
           | [] => false
           | _ :: st => likeCharsFuel fuel (p :: pt) st)
      else
        match s with
        | [] => false
        | c :: st =>
          if p = '_' then likeCharsFuel fuel pt st
          else asciiLower p == asciiLower c && likeCharsFuel fuel pt st

/-- `expr LIKE pattern` for SQLite. -/
def likeMatch (pattern s : String) : Bool :=
  likeCharsFuel (pattern.length + s.length + 1) pattern.data s.data

/-- `deindex`: `DELETE FROM file WHERE path LIKE "{path}%"`, with the
`ON DELETE CASCADE` foreign key removing the symbols of deleted files. -/
def deindex (st : Store) (path : List String) : Store :=
  let path_pattern := pathToString path ++ "%"
  let deleted_ids := (st.files.filter (fun f => likeMatch path_pattern f.path)).map FileRow.id
  { files := st.files.filter (fun f => !(likeMatch path_pattern f.path)),
    symbols := st.symbols.filter (fun r => !(deleted_ids.contains r.file_id)) }

/-! ## `LIKE` facts and the `deindex` claim -/

/-- One-step unfolding: empty pattern. -/
theorem likeCharsFuel_succ_nil (fuel : Nat) (s : List Char) :
    likeCharsFuel (fuel + 1) [] s = s.isEmpty := rfl

/-- One-step unfolding: `%` against the empty string. -/
theorem likeCharsFuel_succ_star_nil (fuel : Nat) (ps : List Char) :
    likeCharsFuel (fuel + 1) ('%' :: ps) [] = likeCharsFuel fuel ps [] := by
  simp only [likeCharsFuel, if_pos rfl, if_true, Bool.or_false]

/-- One-step unfolding: `%` against a non-empty string. -/
theorem likeCharsFuel_succ_star_cons (fuel : Nat) (ps : List Char) (c : Char)
    (st : List Char) :
    likeCharsFuel (fuel + 1) ('%' :: ps) (c :: st) =
      (likeCharsFuel fuel ps (c :: st) || likeCharsFuel fuel ('%' :: ps) st) := by
  simp only [likeCharsFuel, if_pos rfl, if_true]

/-- One-step unfolding: a non-wildcard pattern character. -/
theorem likeCharsFuel_succ_char (fuel : Nat) (p : Char) (hp : ¬ p = '%')
    (hu : ¬ p = '_') (pt : List Char) (c : Char) (st : List Char) :
    likeCharsFuel (fuel + 1) (p :: pt) (c :: st) =
      (asciiLower p == asciiLower c && likeCharsFuel fuel pt st) := by
  simp only [likeCharsFuel, if_neg hp, if_neg hu]

/-- One-step unfolding: `_` consumes exactly one character. -/
theorem likeCharsFuel_succ_underscore (fuel : Nat) (pt : List Char) (c : Char)
    (st : List Char) :
    likeCharsFuel (fuel + 1) ('_' :: pt) (c :: st) = likeCharsFuel fuel pt st := by
  simp only [likeCharsFuel, if_neg (by decide : ¬ ('_' : Char) = '%'), if_pos rfl, if_true]

/-- More fuel never turns a `LIKE` match off. -/
theorem likeCharsFuel_mono : ∀ (fuel fuel' : Nat) (ps s : List Char),
    fuel ≤ fuel' → likeCharsFuel fuel ps s = true → likeCharsFuel fuel' ps s = true := by
  intro fuel
  induction fuel with
  | zero => intro fuel' ps s _ h; simp [likeCharsFuel] at h
  | succ f ih =>
    intro fuel' ps s hle h
    obtain ⟨f', rfl⟩ : ∃ g, fuel' = g + 1 := ⟨fuel' - 1, by omega⟩
    cases ps with
    | nil => rw [likeCharsFuel_succ_nil] at h ⊢; exact h
    | cons p pt =>
      by_cases hp : p = '%'
      · subst hp
        cases s with
        | nil =>
          rw [likeCharsFuel_succ_star_nil] at h ⊢
          exact ih f' pt [] (by omega) h
        | cons c st =>
          rw [likeCharsFuel_succ_star_cons, Bool.or_eq_true] at h ⊢
          rcases h with h1 | h2
          · exact Or.inl (ih f' pt (c :: st) (by omega) h1)
          · exact Or.inr (ih f' ('%' :: pt) st (by omega) h2)
      · cases s with
        | nil =>
          exfalso
          revert h
          simp [likeCharsFuel, if_neg hp]
        | cons c st =>
          by_cases hu : p = '_'
          · subst hu
            rw [likeCharsFuel_succ_underscore] at h ⊢
            exact ih f' pt st (by omega) h
          · rw [likeCharsFuel_succ_char _ p hp hu, Bool.and_eq_true] at h ⊢
            exact ⟨h.1, ih f' pt st (by omega) h.2⟩

/-- A leading `%` can absorb any characters in front of a matching
suffix. -/
theorem likeCharsFuel_skip : ∀ (s₁ : List Char) (fuel : Nat) (ps s₂ : List Char),
    likeCharsFuel fuel ps s₂ = true →
    likeCharsFuel (fuel + s₁.length + 1) ('%' :: ps) (s₁ ++ s₂) = true := by
  intro s₁
  induction s₁ with
  | nil =>
    intro fuel ps s₂ h
    simp only [List.length_nil, Nat.add_zero, List.nil_append]
    cases s₂ with
    | nil => rw [likeCharsFuel_succ_star_nil]; exact h
    | cons c st =>
      rw [likeCharsFuel_succ_star_cons, Bool.or_eq_true]
      exact Or.inl h
  | cons c s₁ ih =>
    intro fuel ps s₂ h
    have hrec := ih fuel ps s₂ h
    have harith : fuel + (c :: s₁).length + 1 = (fuel + s₁.length + 1) + 1 := by
      simp [List.length_cons]; omega
    rw [harith, List.cons_append, likeCharsFuel_succ_star_cons, Bool.or_eq_true]
    exact Or.inr hrec

/-- The single pattern `%` matches everything (given enough fuel). -/
theorem likeCharsFuel_star : ∀ (t : List Char) (fuel : Nat),
    t.length + 2 ≤ fuel → likeCharsFuel fuel ['%'] t = true := by
  intro t
  induction t with
  | nil =>
    intro fuel h
    obtain ⟨f, rfl⟩ : ∃ g, fuel = g + 1 := ⟨fuel - 1, by omega⟩
    obtain ⟨f', rfl⟩ : ∃ g, f = g + 1 := ⟨f - 1, by omega⟩
    rw [likeCharsFuel_succ_star_nil, likeCharsFuel_succ_nil]
    rfl
  | cons c t ih =>
    intro fuel h
    obtain ⟨f, rfl⟩ : ∃ g, fuel = g + 1 := ⟨fuel - 1, by omega⟩
    rw [likeCharsFuel_succ_star_cons, Bool.or_eq_true]
    exact Or.inr (ih f (by simp only [List.length_cons] at h; omega))

/-- `pre%` matches `pre ++ t` for any literal prefix `pre` and tail `t`. -/
theorem likeCharsFuel_prefix : ∀ (pre t : List Char) (fuel : Nat),
    2 * pre.length + t.length + 2 ≤ fuel →
    likeCharsFuel fuel (pre ++ ['%']) (pre ++ t) = true := by
  intro pre
  induction pre with
  | nil =>
    intro t fuel h
    simpa using likeCharsFuel_star t fuel (by simpa using h)
  | cons x pre ih =>
    intro t fuel h
    by_cases hx : x = '%'
    · subst hx
      have inner := ih t (2 * pre.length + t.length + 2) (le_refl _)
      have hskip := likeCharsFuel_skip ['%'] _ _ _ inner
      have hskip' : likeCharsFuel (2 * pre.length + t.length + 4)
          (('%' :: pre) ++ ['%']) (('%' :: pre) ++ t) = true := by
        have harith : 2 * pre.length + t.length + 2 + (['%'] : List Char).length + 1 =
            2 * pre.length + t.length + 4 := by simp
        rw [harith] at hskip
        simpa [List.cons_append] using hskip
      refine likeCharsFuel_mono _ fuel _ _ ?_ hskip'
      simp only [List.length_cons] at h; omega
    · obtain ⟨f, rfl⟩ : ∃ g, fuel = g + 1 := ⟨fuel - 1, by omega⟩
      simp only [List.cons_append]
      by_cases hu : x = '_'
      · subst hu
        rw [likeCharsFuel_succ_underscore]
        exact ih t f (by simp only [List.length_cons] at h; omega)
      · rw [likeCharsFuel_succ_char _ x hx hu, Bool.and_eq_true]
        exact ⟨beq_self_eq_true _, ih t f (by simp only [List.length_cons] at h; omega)⟩

/-- Appending `%` to a string gives a `LIKE` pattern matching every string
it literally prefixes. -/
theorem likeMatch_of_prefix (p s : String) (h : p.data <+: s.data) :
    likeMatch (p ++ "%") s = true := by
  obtain ⟨t, ht⟩ := h
  unfold likeMatch
  have hdata : (p ++ "%").data = p.data ++ ['%'] := String.data_append p "%"
  have hlen : s.data.length = p.data.length + t.length := by
    rw [← ht]; simp
  have hplen : (p ++ "%").length = p.data.length + 1 := by
    show (p ++ "%").data.length = _
    rw [hdata]; simp
  have hslen : s.length = p.data.length + t.length := hlen
  rw [hdata, ← ht]
  apply likeCharsFuel_prefix
  rw [hplen, hslen]
  omega

/-- C4: after `deindex(p)` no file row whose path begins with `p` remains,
and hence no symbol row references (via its file id) a file row whose path
begins with `p`; the one prefix-match `DELETE` covers files and
directories alike. -/
theorem deindex_no_prefixed_rows :
    ∀ (st : Store) (path : List String),
      (∀ f ∈ (deindex st path).files, ¬ ((pathToString path).data <+: f.path.data)) ∧
      (∀ r ∈ (deindex st path).symbols, ∀ f ∈ (deindex st path).files,
        r.file_id = f.id → ¬ ((pathToString path).data <+: f.path.data)) := by
  intro st path
  have hfiles : ∀ f ∈ (deindex st path).files,
      ¬ ((pathToString path).data <+: f.path.data) := by
    intro f hf hpre
    unfold deindex at hf
    simp only [List.mem_filter] at hf
    rw [ likeMatch_of_prefix (pathToString path) f.path hpre] at hf
    simp at hf
  exact ⟨hfiles, fun r _ f hf _ => hfiles f hf⟩

/-- A one-file store whose path does not start with `a`. -/
def exStoreKeep : Store :=
  { files := [{ id := 1, path := "b/keep.rs", indexed_at := 0 }],
    symbols := [{ id := 1, kind := .Function, name := "f", file_id := 1,
                  start_line := 1, start_column := 1, end_line := 1,
                  end_column := 1, indexed_at := 0 }] }

/-- C4, witness: the surviving file row of `exStoreKeep` after
`deindex(["a"])` indeed does not have `a` as a path prefix. -/
theorem deindex_no_prefixed_rows_witness :
    ({ id := 1, path := "b/keep.rs", indexed_at := 0 } : FileRow) ∈
      (deindex exStoreKeep ["a"]).files ∧
    ¬ ((pathToString ["a"]).data <+:
        ({ id := 1, path := "b/keep.rs", indexed_at := 0 } : FileRow).path.data) :=
  ⟨by decide, (deindex_no_prefixed_rows exStoreKeep ["a"]).1 _ (by decide)⟩

/-! ## Helper lemmas for the `index_file` transaction -/

/-- Every list member is below the running `foldr max`. -/
theorem mem_le_foldr_max : ∀ (l : List Int) (b a : Int), a ∈ l → a ≤ l.foldr max b := by
  intro l
  induction l with
  | nil => intro b a h; exact absurd h (List.not_mem_nil a)
  | cons x xs ih =>
    intro b a h
    rcases List.mem_cons.mp h with rfl | hx
    · exact le_max_left _ _
    · exact le_trans (ih b a hx) (le_max_right _ _)

/-- The fresh file id differs from every id already in the table. -/
theorem freshFileId_not_mem (files : List FileRow) (f : FileRow) (hf : f ∈ files) :
    f.id ≠ freshFileId files := by
  unfold freshFileId
  have := mem_le_foldr_max (files.map FileRow.id) 0 f.id (List.mem_map_of_mem _ hf)
  omega

/-- With unique paths, a successful `find?` by path identifies the filter
by path. -/
theorem filter_path_of_find?_some :
    ∀ (files : List FileRow) (p : String) (f : FileRow),
      (files.map FileRow.path).Nodup →
      files.find? (fun g => g.path == p) = some f →
      files.filter (fun g => g.path == p) = [f] := by
  intro files
  induction files with
  | nil => intro p f _ hfind; simp at hfind
  | cons g rest ih =>
    intro p f hnodup hfind
    simp only [List.map_cons, List.nodup_cons] at hnodup
    by_cases hg : g.path = p
    · have hfg : (fun x : FileRow => x.path == p) g = true := by simp [hg]
      rw [@List.find?_cons_of_pos _ (fun x : FileRow => x.path == p) g rest hfg] at hfind
      injection hfind with hfind
      subst hfind
      rw [@List.filter_cons_of_pos _ (fun x : FileRow => x.path == p) g rest hfg]
      have hrest : rest.filter (fun x : FileRow => x.path == p) = [] := by
        rw [List.filter_eq_nil_iff]
        intro a ha hap
        rw [beq_iff_eq] at hap
        exact hnodup.1 (hg ▸ hap ▸ List.mem_map_of_mem FileRow.path ha)
      rw [hrest]
    · have hfg : ¬ (fun x : FileRow => x.path == p) g = true := by simp [hg]
      rw [@List.find?_cons_of_neg _ (fun x : FileRow => x.path == p) g rest hfg] at hfind
      rw [@List.filter_cons_of_neg _ (fun x : FileRow => x.path == p) g rest hfg]
      exact ih p f hnodup.2 hfind

/-- A failed `find?` by path means the filter by path is empty. -/
theorem filter_path_of_find?_none (files : List FileRow) (p : String)
    (hfind : files.find? (fun g => g.path == p) = none) :
    files.filter (fun g => g.path == p) = [] := by
  rw [List.filter_eq_nil_iff]
  intro a ha
  simpa using List.find?_eq_none.mp hfind a ha

/-- The indexed-at refresh of the upsert preserves path-filtered ids for
every path. -/
theorem filter_path_map_upsert :
    ∀ (files : List FileRow) (p q : String) (now : Int),
      (((files.map (fun g => if g.path == p then { g with indexed_at := now } else g)).filter
          (fun f => f.path == q)).map FileRow.id) =
        ((files.filter (fun f => f.path == q)).map FileRow.id) := by
  intro files p q now
  induction files with
  | nil => rfl
  | cons g rest ih =>
    simp only [List.map_cons, List.filter_cons]
    have hpath : (if g.path == p then { g with indexed_at := now } else g).path = g.path := by
      by_cases h : g.path == p <;> simp [h]
    have hid : (if g.path == p then { g with indexed_at := now } else g).id = g.id := by
      by_cases h : g.path == p <;> simp [h]
    rw [hpath]
    by_cases hq : (g.path == q) = true
    · rw [if_pos hq, if_pos hq, List.map_cons, List.map_cons, hid, ih]
    · rw [if_neg hq, if_neg hq, ih]

/-- After the upsert, the file rows stored under the upserted path are
exactly one row carrying the returned id. -/
theorem upsertFile_ids_same (files : List FileRow) (p : String) (now : Int)
    (hnodup : (files.map FileRow.path).Nodup) :
    (((upsertFile files p now).2.filter (fun f => f.path == p)).map FileRow.id) =
      [(upsertFile files p now).1] := by
  unfold upsertFile
  cases hfind : files.find? (fun f => f.path == p) with
  | some f =>
    dsimp only
    rw [filter_path_map_upsert files p p now,
      filter_path_of_find?_some files p f hnodup hfind]
    rfl
  | none =>
    dsimp only
    rw [List.filter_append, filter_path_of_find?_none files p hfind, List.nil_append]
    simp

/-- The upsert leaves the rows (and ids) stored under every other path
untouched. -/
theorem upsertFile_ids_other (files : List FileRow) (p q : String) (now : Int)
    (hq : q ≠ p) :
    (((upsertFile files p now).2.filter (fun f => f.path == q)).map FileRow.id) =
      ((files.filter (fun f => f.path == q)).map FileRow.id) := by
  unfold upsertFile
  cases hfind : files.find? (fun f => f.path == p) with
  | some f =>
    dsimp only
    exact filter_path_map_upsert files p q now
  | none =>
    dsimp only
    rw [List.filter_append]
    have hnew : [({ id := freshFileId files, path := p, indexed_at := now } : FileRow)].filter
        (fun f => f.path == q) = [] := by
      simp [hq.symm]
    rw [hnew, List.append_nil]

/-- `tryIntoI32` succeeds with the plain cast. -/
theorem tryIntoI32_eq (n : Nat) (v : Int) (h : tryIntoI32 n = some v) : v = (n : Int) := by
  unfold tryIntoI32 at h
  split at h
  · injection h with h; exact h.symm
  · exact absurd h (by simp)

/-- Every row produced by the insert loop references the upserted file. -/
theorem insertSymbolRows_ok_file_id :
    ∀ (syms : List Symbol) (file_id now next_id : Int) (rows : List SymbolRow),
      insertSymbolRows file_id now next_id syms = .ok rows →
      ∀ r ∈ rows, r.file_id = file_id := by
  intro syms
  induction syms with
  | nil =>
    intro fid now nid rows h r hr
    simp only [insertSymbolRows] at h
    injection h with h
    subst h
    exact absurd hr (List.not_mem_nil r)
  | cons s rest ih =>
    intro fid now nid rows h r hr
    simp only [insertSymbolRows] at h
    split at h
    · exact ih fid now nid rows h r hr
    · split at h
      · cases hrec : insertSymbolRows fid now (nid + 1) rest with
        | error e => rw [hrec] at h; simp [Except.map] at h
        | ok rows' =>
          rw [hrec] at h
          simp only [Except.map] at h
          injection h with h
          subst h
          rcases List.mem_cons.mp hr with rfl | hr'
          · rfl
          · exact ih fid now (nid + 1) rows' hrec r hr'
      · exact absurd h (by simp)

/-- The payload of the inserted rows is exactly the payload of the parsed
symbols that carry a definition, in order. -/
theorem insertSymbolRows_ok_data :
    ∀ (syms : List Symbol) (file_id now next_id : Int) (rows : List SymbolRow),
      insertSymbolRows file_id now next_id syms = .ok rows →
      rows.map SymbolRow.data = syms.filterMap emittedRowData := by
  intro syms
  induction syms with
  | nil =>
    intro fid now nid rows h
    simp only [insertSymbolRows] at h
    injection h with h
    subst h
    rfl
  | cons s rest ih =>
    intro fid now nid rows h
    simp only [insertSymbolRows] at h
    split at h
    · next hdef =>
        rw [List.filterMap_cons]
        simp only [emittedRowData, hdef, Option.map_none]
        exact ih fid now nid rows h
    · next d hdef =>
        split at h
        · next sl sc el ec hsl hsc hel hec =>
            cases hrec : insertSymbolRows fid now (nid + 1) rest with
            | error e => rw [hrec] at h; simp [Except.map] at h
            | ok rows' =>
              rw [hrec] at h
              simp only [Except.map] at h
              injection h with h
              subst h
              rw [List.filterMap_cons, List.map_cons, ih fid now (nid + 1) rows' hrec]
              simp [emittedRowData, hdef, SymbolRow.data,
                tryIntoI32_eq _ _ hsl, tryIntoI32_eq _ _ hsc,
                tryIntoI32_eq _ _ hel, tryIntoI32_eq _ _ hec]
        · exact absurd h (by simp)

/-- Unfolding `symbolsFor` on a literal store. -/
theorem symbolsFor_mk (files : List FileRow) (symbols : List SymbolRow) (p : String) :
    symbolsFor { files := files, symbols := symbols } p =
      symbols.filter (fun r =>
        (((files.filter (fun f => f.path == p)).map FileRow.id).contains r.file_id)) := rfl

/-- The id returned by the upsert for `p` is never an id stored under a
different path `q`. -/
theorem upsertFile_id_not_other (files : List FileRow) (p q : String) (now : Int)
    (hq : q ≠ p) (hids : (files.map FileRow.id).Nodup)
    (_hpaths : (files.map FileRow.path).Nodup) :
    (upsertFile files p now).1 ∉ (files.filter (fun f => f.path == q)).map FileRow.id := by
  intro hmem
  obtain ⟨g, hg, hgid⟩ := List.mem_map.mp hmem
  have hgmem : g ∈ files := List.mem_of_mem_filter hg
  have hgpath : g.path = q := by
    have := (List.mem_filter.mp hg).2
    rwa [beq_iff_eq] at this
  unfold upsertFile at hgid
  cases hfind : files.find? (fun f => f.path == p) with
  | some f =>
    rw [hfind] at hgid
    dsimp only at hgid
    have hfmem : f ∈ files := List.mem_of_find?_eq_some hfind
    have hfpath : f.path = p := by
      have := List.find?_some hfind
      rwa [beq_iff_eq] at this
    have : g = f := List.inj_on_of_nodup_map hids hgmem hfmem hgid
    exact hq (by rw [← hgpath, this, hfpath])
  | none =>
    rw [hfind] at hgid
    dsimp only at hgid
    exact freshFileId_not_mem files g hgmem hgid

/-- Filtering by `B` after a pre-filter `A` implied by `B` is just
filtering by `B`. -/
theorem filter_filter_of_imp {α : Type} (l : List α) (A B : α → Bool)
    (h : ∀ a, B a = true → A a = true) :
    (l.filter A).filter B = l.filter B := by
  induction l with
  | nil => rfl
  | cons x xs ih =>
    by_cases hB : B x = true
    · have hA := h x hB
      simp [List.filter_cons, hA, hB, ih]
    · by_cases hA : A x = true <;> simp [List.filter_cons, hA, hB, ih]

/-- C2: a committed `index_file(p)` leaves the store containing, for `p`,
exactly the rows of the parser-emitted symbols (those carrying a
definition — the tree-sitter parser always attaches one), atomically
replacing any prior set and leaving every other path's symbols untouched;
a failed call leaves the caller's store exactly as it was. -/
theorem index_file_exact_replacement :
    ∀ (st : Store) (workspaces : List (List String)) (path : List String)
      (path_exists path_is_file : Bool)
      (parsed : Except ParserError (List Symbol)) (now : Int),
      st.WF →
      (∀ (syms : List Symbol), parsed = .ok syms →
        ∀ st', index_file st workspaces path path_exists path_is_file parsed now = .ok st' →
          ((symbolsFor st' (pathToString path)).map SymbolRow.data =
              syms.filterMap emittedRowData) ∧
          (∀ q : String, q ≠ pathToString path → symbolsFor st' q = symbolsFor st q)) ∧
      (∀ e : IndexerError,
        index_file st workspaces path path_exists path_is_file parsed now = .error e →
        index_file_run st workspaces path path_exists path_is_file parsed now = st) := by
  intro st workspaces path pe pf parsed now hwf
  constructor
  · intro syms hparsed st' hok
    subst hparsed
    simp only [index_file] at hok
    split at hok
    · exact absurd hok (by simp)
    · split at hok
      · exact absurd hok (by simp)
      · split at hok
        · exact absurd hok (by simp)
        · split at hok
          · exact absurd hok (by simp)
          · next new_rows hins =>
            injection hok with hok
            subst hok
            constructor
            · rw [symbolsFor_mk,
                upsertFile_ids_same st.files (pathToString path) now hwf.2,
                List.filter_append]
              have hrem : (st.symbols.filter
                    (fun r => r.file_id ≠ (upsertFile st.files (pathToString path) now).1)).filter
                  (fun r => ([(upsertFile st.files (pathToString path) now).1].contains r.file_id)) = [] := by
                rw [List.filter_eq_nil_iff]
                intro r hr hcon
                have h1 := (List.mem_filter.mp hr).2
                rw [decide_eq_true_eq] at h1
                exact h1 (by simpa using hcon)
              have hnew : new_rows.filter
                  (fun r => ([(upsertFile st.files (pathToString path) now).1].contains r.file_id)) = new_rows := by
                rw [List.filter_eq_self]
                intro r hr
                have hfid := insertSymbolRows_ok_file_id syms
                  (upsertFile st.files (pathToString path) now).1 now
                  (freshSymbolId st.symbols) new_rows hins r hr
                simp [hfid]
              rw [hrem, hnew, List.nil_append]
              exact insertSymbolRows_ok_data syms
                (upsertFile st.files (pathToString path) now).1 now
                (freshSymbolId st.symbols) new_rows hins
            · intro q hqne
              rw [symbolsFor_mk,
                upsertFile_ids_other st.files (pathToString path) q now hqne,
                List.filter_append]
              have hnewq : new_rows.filter (fun r =>
                  (((st.files.filter (fun f => f.path == q)).map FileRow.id).contains r.file_id)) = [] := by
                rw [List.filter_eq_nil_iff]
                intro r hr hcon
                have hfid := insertSymbolRows_ok_file_id syms
                  (upsertFile st.files (pathToString path) now).1 now
                  (freshSymbolId st.symbols) new_rows hins r hr
                rw [hfid] at hcon
                exact upsertFile_id_not_other st.files (pathToString path) q now hqne
                  hwf.1 hwf.2 (by simpa using hcon)
              have hremq : (st.symbols.filter
                    (fun r => r.file_id ≠ (upsertFile st.files (pathToString path) now).1)).filter
                  (fun r => (((st.files.filter (fun f => f.path == q)).map FileRow.id).contains r.file_id)) =
                  st.symbols.filter (fun r =>
                    (((st.files.filter (fun f => f.path == q)).map FileRow.id).contains r.file_id)) := by
                apply filter_filter_of_imp
                intro a hB
                rw [decide_eq_true_eq]
                intro haeq
                refine upsertFile_id_not_other st.files (pathToString path) q now hqne
                  hwf.1 hwf.2 ?_
                rw [← haeq]
                simpa using hB
              rw [hnewq, hremq, List.append_nil]
              rfl
  · intro e he
    unfold index_file_run
    rw [he]

/-- The empty store. -/
def exEmptyStore : Store := { files := [], symbols := [] }

/-- The store after indexing `w/f.rs` with the one parsed symbol
`exFunctionSymbol` into the empty store at time 5. -/
def exStoreAfter : Store :=
  { files := [{ id := 1, path := "w/f.rs", indexed_at := 5 }],
    symbols := [{ id := 1, kind := .Function, name := "foo", file_id := 1,
                  start_line := 3, start_column := 4, end_line := 3,
                  end_column := 10, indexed_at := 5 }] }

/-- C2, witness: indexing one symbol into the empty store commits and the
store then holds exactly that symbol's row for the file, with every other
path untouched. -/
theorem index_file_exact_replacement_witness :
    index_file exEmptyStore [["w"]] ["w", "f.rs"] true true
      (.ok [exFunctionSymbol]) 5 = .ok exStoreAfter ∧
    ((symbolsFor exStoreAfter (pathToString ["w", "f.rs"])).map SymbolRow.data =
        [exFunctionSymbol].filterMap emittedRowData) ∧
    (∀ q : String, q ≠ pathToString ["w", "f.rs"] →
      symbolsFor exStoreAfter q = symbolsFor exEmptyStore q) :=
  ⟨rfl,
    (index_file_exact_replacement exEmptyStore [["w"]] ["w", "f.rs"] true true
        (.ok [exFunctionSymbol]) 5 (by constructor <;> decide)).1
      [exFunctionSymbol] rfl exStoreAfter rfl⟩

/-! ## `utils.rs::generate_unique_db_name` and SHA-256

The `sha2` crate is external; it is modelled by a complete executable
SHA-256 (FIPS 180-4) over byte lists.  Feeding each workspace's UTF-8
bytes to an incremental hasher is hashing the concatenation of those byte
strings, so `generate_unique_db_name` hashes the concatenation and hex
encodes the digest, exactly as the source does. -/

/-- Truncation to 32 bits. -/
def w32 (n : Nat) : Nat := n % 4294967296

/-- 32-bit right rotation. -/
def rotr32 (n x : Nat) : Nat := w32 ((x >>> n) ||| (x <<< (32 - n)))

/-- SHA-256 Σ₀. -/
def bigSigma0 (x : Nat) : Nat := (rotr32 2 x) ^^^ (rotr32 13 x) ^^^ (rotr32 22 x)

/-- SHA-256 Σ₁. -/
def bigSigma1 (x : Nat) : Nat := (rotr32 6 x) ^^^ (rotr32 11 x) ^^^ (rotr32 25 x)

/-- SHA-256 σ₀. -/
def smallSigma0 (x : Nat) : Nat := (rotr32 7 x) ^^^ (rotr32 18 x) ^^^ (x >>> 3)

/-- SHA-256 σ₁. -/
def smallSigma1 (x : Nat) : Nat := (rotr32 17 x) ^^^ (rotr32 19 x) ^^^ (x >>> 10)

/-- SHA-256 Ch. -/
def chNat (x y z : Nat) : Nat := (x &&& y) ^^^ ((x ^^^ 4294967295) &&& z)

/-- SHA-256 Maj. -/
def majNat (x y z : Nat) : Nat := (x &&& y) ^^^ (x &&& z) ^^^ (y &&& z)

/-- The 64 SHA-256 round constants, written in decimal. -/
def sha256K : List Nat :=
  [1116352408, 1899447441, 3049323471, 3921009573,
   961987163, 1508970993, 2453635748, 2870763221,
   3624381080, 310598401, 607225278, 1426881987,
   1925078388, 2162078206, 2614888103, 3248222580,
   3835390401, 4022224774, 264347078, 604807628,
   770255983, 1249150122, 1555081692, 1996064986,
   2554220882, 2821834349, 2952996808, 3210313671,
   3336571891, 3584528711, 113926993, 338241895,
   666307205, 773529912, 1294757372, 1396182291,
   1695183700, 1986661051, 2177026350, 2456956037,
   2730485921, 2820302411, 3259730800, 3345764771,
   3516065817, 3600352804, 4094571909, 275423344,
   430227734, 506948616, 659060556, 883997877,
   958139571, 1322822218, 1537002063, 1747873779,
   1955562222, 2024104815, 2227730452, 2361852424,
   2428436474, 2756734187, 3204031479, 3329325298]

/-- The SHA-256 initial hash value, written in decimal. -/
def sha256H0 : List Nat :=
  [1779033703, 3144134277, 1013904242, 2773480762,
   1359893119, 2600822924, 528734635, 1541459225]

/-- `k` bytes of `n`, big-endian. -/
def bytesBE (k n : Nat) : List Nat :=
  (List.range k).map (fun i => (n >>> (8 * (k - 1 - i))) % 256)

/-- SHA-256 padding: `0x80`, zeros to 56 mod 64, 8-byte big-endian bit
length. -/
def sha256Pad (msg : List Nat) : List Nat :=
  let len := msg.length
  let zeros := (119 - (len % 64)) % 64
  msg ++ [0x80] ++ List.replicate zeros 0 ++ bytesBE 8 (len * 8)

/-- Split into 64-byte blocks (the fuel is an upper bound on the block
count, never reached early). -/
def chunks64 : Nat → List Nat → List (List Nat)
  | 0, _ => []
  | _ + 1, [] => []
  | fuel + 1, l => l.take 64 :: chunks64 fuel (l.drop 64)

/-- 64 bytes into 16 big-endian 32-bit words. -/
def toWordsBE : List Nat → List Nat
  | b0 :: b1 :: b2 :: b3 :: rest =>
      (b0 * 16777216 + b1 * 65536 + b2 * 256 + b3) :: toWordsBE rest
  | _ => []

/-- Message-schedule extension step, run 48 times to grow 16 words to
64. -/
def scheduleFuel : Nat → List Nat → List Nat
  | 0, w => w
  | fuel + 1, w =>
      let n := w.length
      let wi := w32 (smallSigma1 (w.getD (n - 2) 0) + w.getD (n - 7) 0 +
        smallSigma0 (w.getD (n - 15) 0) + w.getD (n - 16) 0)
      scheduleFuel fuel (w ++ [wi])

/-- One SHA-256 round on the eight-word working state. -/
def compressRound (state : List Nat) (k w : Nat) : List Nat :=
  match state with
  | [a, b, c, d, e, f, g, h] =>
      let t1 := w32 (h + bigSigma1 e + chNat e f g + k + w)
      let t2 := w32 (bigSigma0 a + majNat a b c)
      [w32 (t1 + t2), a, b, c, w32 (d + t1), e, f, g]
  | other => other

/-- Compress one 64-byte block into the hash state. -/
def compressBlock (h : List Nat) (block : List Nat) : List Nat :=
  let w := scheduleFuel 48 (toWordsBE block)
  let state := (sha256K.zip w).foldl (fun st kw => compressRound st kw.1 kw.2) h
  (h.zip state).map (fun q => w32 (q.1 + q.2))

/-- The SHA-256 digest of a byte list, as eight 32-bit words. -/
def sha256Words (msg : List Nat) : List Nat :=
  let padded := sha256Pad msg
  (chunks64 padded.length padded).foldl compressBlock sha256H0

/-- Lower-case hex digit. -/
def hexDigit (n : Nat) : Char :=
  if n < 10 then Char.ofNat (48 + n) else Char.ofNat (87 + n)

/-- Eight hex digits of a 32-bit word. -/
def hexWord32 (n : Nat) : List Char :=
  (List.range 8).map (fun i => hexDigit ((n >>> (4 * (7 - i))) % 16))

/-- The lower-case hex digest of a byte list (`hex::encode` of the
`sha2` output). -/
def sha256Hex (msg : List Nat) : String :=
  String.mk ((sha256Words msg).map hexWord32).flatten

/-- UTF-8 encoding of one character (`str::as_bytes`). -/
def utf8EncodeChar (c : Char) : List Nat :=
  let n := c.toNat
  if n < 128 then [n]
  else if n < 2048 then [192 + n / 64, 128 + n % 64]
  else if n < 65536 then [224 + n / 4096, 128 + (n / 64) % 64, 128 + n % 64]
  else [240 + n / 262144, 128 + (n / 4096) % 64, 128 + (n / 64) % 64, 128 + n % 64]

/-- The UTF-8 bytes of a string. -/
def strBytes (s : String) : List Nat := (s.data.map utf8EncodeChar).flatten

/-- `generate_unique_db_name`: update the hasher with each workspace's
string bytes in iteration order (no separator) — i.e. hash the
concatenation — and hex encode the digest. -/
def generate_unique_db_name (workspaces : List String) : String :=
  sha256Hex ((workspaces.map strBytes).flatten)

/-- The embedding reproduces the digest asserted by the repository's own
unit test for `generate_unique_db_name`. -/
theorem generate_unique_db_name_reference_vector :
    generate_unique_db_name ["/some/workspace/1", "/some/workspace/2"] =
      "06932fd30d07d2130b10e019489a6609900ab13bf91b87b7db5b1da256b3c75c" := by
  rfl

/-- C5, counterexample: the store name only depends on the concatenated
workspace bytes, so a two-element sequence whose concatenation is
reversal-invariant — `["a", "aa"]` — gets the same name as its reversal,
refuting `store_name(W) ≠ store_name(reverse(W))` for every `|W| > 1`. -/
theorem store_name_reverse_collision :
    (["a", "aa"] : List String).length > 1 ∧
    (["a", "aa"] : List String).reverse ≠ ["a", "aa"] ∧
    generate_unique_db_name ["a", "aa"] =
      generate_unique_db_name ((["a", "aa"] : List String).reverse) := by
  refine ⟨by decide, by decide, ?_⟩
  rfl

/-- C5, amended: the derivation is deterministic and is a function of the
concatenated workspace bytes alone; reversal therefore changes the name
only when it changes the concatenation — it does for the repository's own
two test workspaces, but not for e.g. `["a", "aa"]`. -/
theorem store_name_amended :
    (∀ W : List String, generate_unique_db_name W = generate_unique_db_name W) ∧
    (∀ W W' : List String, (W.map strBytes).flatten = (W'.map strBytes).flatten →
      generate_unique_db_name W = generate_unique_db_name W') ∧
    (generate_unique_db_name ["/some/workspace/1", "/some/workspace/2"] ≠
      generate_unique_db_name
        ((["/some/workspace/1", "/some/workspace/2"] : List String).reverse)) := by
  refine ⟨fun W => rfl, ?_, ?_⟩
  · intro W W' h
    unfold generate_unique_db_name
    rw [h]
  · decide

/-- C5, witness: the concatenation-equality clause applied to `["a", "aa"]`
and `["aa", "a"]`, whose byte concatenations coincide. -/
theorem store_name_amended_witness :
    ((["a", "aa"] : List String).map strBytes).flatten =
      ((["aa", "a"] : List String).map strBytes).flatten ∧
    generate_unique_db_name ["a", "aa"] = generate_unique_db_name ["aa", "a"] :=
  ⟨by decide, store_name_amended.2.1 ["a", "aa"] ["aa", "a"] (by decide)⟩

end Onoma
